import Mathlib

/-!
Verification of the `seitai` message-relay bot core against its sources.

The development shallowly embeds the Rust sources:

* `src/seitai/src/utils.rs` — the adaptive per-user `RateLimiter`
  (`check_rate_limit`, `get_user_state`);
* `src/seitai/src/commands/join.rs` — the `join` command (`run`) and the
  `DriverDisconnectNotifier` event handler over the songbird manager;
* `src/seitai/src/event_handler.rs` — `Handler::message` (URL splitting,
  per-line trimming, audio resolution and enqueueing) and
  `get_audio_source`.

Numeric conventions: Rust `Instant`s and `Duration`s are embedded as
rationals measured in seconds; `Instant::duration_since` saturates at
zero exactly as in Rust.  `f32` values are embedded as exact rationals
paired with an overflow-to-infinity flag (`F32`): arithmetic keeps the
exact value and raises the flag as soon as a product leaves the finite
`f32` range.  This captures overflow behaviour exactly (away from the
borderline of the largest finite `f32`) while abstracting from rounding
of in-range values.  `Duration::from_secs_f32` is embedded as a partial
function: `none` models its panic on non-finite or out-of-range input.
-/

set_option maxRecDepth 100000

namespace Seitai

attribute [local semireducible] Rat.add Rat.mul Rat.sub Rat.inv Rat.ofScientific

/-- An `f32` value: the exact rational it denotes together with a flag
recording that the computation has overflowed to infinity. -/
structure F32 where
  val : ℚ
  isInf : Bool
deriving DecidableEq, Repr

/-- The largest finite `f32`, `(2^24 - 1) * 2^104`. -/
def f32Max : ℚ := ((2 : ℚ) ^ 24 - 1) * 2 ^ 104

/-- Embed a rational as an `f32` (overflow check only; in-range values
are kept exact). -/
def F32.ofRat (q : ℚ) : F32 :=
  ⟨q, decide (f32Max < |q|)⟩

/-- `f32` multiplication: exact product, infinity is sticky and is also
produced when the product leaves the finite range. -/
def F32.mul (a b : F32) : F32 :=
  ⟨a.val * b.val, a.isInf || b.isInf || decide (f32Max < |a.val * b.val|)⟩

/-- `f32::powi` by repeated multiplication (the exponent in the source is
`violation_count as i32`, always a small nonnegative count in any
reachable run, so a natural exponent is faithful). -/
def F32.powi (m : F32) : ℕ → F32
  | 0 => F32.ofRat 1
  | n + 1 => F32.mul (F32.powi m n) m

/-- Largest number of seconds a Rust `Duration` can hold
(`u64::MAX` seconds plus `999_999_999` nanoseconds). -/
def durationMaxSecs : ℚ := ((2 : ℚ) ^ 64 - 1) + 999999999 / 1000000000

/-- `Duration::from_secs_f32`: defined on finite, nonnegative values that
fit a `Duration`; `none` models the panic on any other input. -/
def fromSecsF32 (x : F32) : Option ℚ :=
  if x.isInf || decide (x.val < 0) || decide (durationMaxSecs < x.val) then none
  else some x.val

/-- `now.duration_since t` on `Instant`s: saturating subtraction. -/
def durSince (now t : ℚ) : ℚ := max (now - t) 0

/-- Per-user state of the rate limiter (`UserState` in `utils.rs`). -/
structure UserState where
  messages : List ℚ
  violation_count : ℕ
  cooldown_until : Option ℚ
deriving DecidableEq, Repr

/-- The state `or_insert_with` creates for a user seen for the first
time. -/
def freshUserState : UserState :=
  ⟨[], 0, none⟩

/-- The rate limiter's immutable policy parameters (`RateLimiter` in
`utils.rs`, minus the user map which theorems thread explicitly). -/
structure RateLimiter where
  max_messages : ℕ
  time_window : ℚ
  base_cooldown : ℚ
  max_cooldown : ℚ
  cooldown_multiplier : F32
  violation_reset_time : ℚ
deriving DecidableEq, Repr

/-- `RateLimiter::new`: durations are given in whole seconds, the
violation-reset time in hours. -/
def RateLimiter.new (max_messages time_window_secs base_cooldown_secs max_cooldown_secs : ℕ)
    (cooldown_multiplier : ℚ) (violation_reset_hours : ℕ) : RateLimiter :=
  ⟨max_messages, time_window_secs, base_cooldown_secs, max_cooldown_secs,
    F32.ofRat cooldown_multiplier, violation_reset_hours * 3600⟩

/-- Is the early-return cooldown guard taken (`now < cooldown_until`)? -/
def cooldownActive (st : UserState) (now : ℚ) : Bool :=
  match st.cooldown_until with
  | some cu => decide (now < cu)
  | none => false

/-- The violation-count reset performed once a cooldown has elapsed:
if the user has a recorded last message and at least
`violation_reset_time` has passed since it, the count drops to zero.
Mirrors lines 144–149 of `utils.rs` (a no-op when no cooldown was set,
since the source only runs this inside the `Some(cooldown_until)` arm). -/
def applyViolationReset (rl : RateLimiter) (st : UserState) (now : ℚ) : UserState :=
  match st.cooldown_until with
  | none => st
  | some cu =>
    if now < cu then st
    else
      match st.messages.getLast? with
      | some last =>
        if rl.violation_reset_time ≤ durSince now last then
          ⟨st.messages, 0, st.cooldown_until⟩
        else st
      | none => st

/-- `messages.retain(|time| now.duration_since(*time) <= self.time_window)`. -/
def retainRecent (rl : RateLimiter) (now : ℚ) (msgs : List ℚ) : List ℚ :=
  msgs.filter (fun t => decide (durSince now t ≤ rl.time_window))

/-- The cooldown the violation branch computes before conversion:
`base_cooldown.as_secs_f32() * cooldown_multiplier.powi(violation_count)`
as an `f32`. -/
def cooldownSecsF32 (rl : RateLimiter) (vc : ℕ) : F32 :=
  F32.mul (F32.ofRat rl.base_cooldown) (F32.powi rl.cooldown_multiplier vc)

/-- Lines 155–175 of `utils.rs`: the history-length check, run on the
already-pruned state.  In the violation branch the source converts the
`f32` cooldown with `Duration::from_secs_f32` FIRST and clamps with
`.min(self.max_cooldown)` second; `none` models the conversion's panic. -/
def historyCheck (rl : RateLimiter) (st : UserState) (now : ℚ) : Option (Bool × UserState) :=
  if rl.max_messages ≤ st.messages.length then
    match fromSecsF32 (cooldownSecsF32 rl (st.violation_count + 1)) with
    | none => none
    | some d =>
      some (false, ⟨st.messages, st.violation_count + 1, some (now + min d rl.max_cooldown)⟩)
  else
    some (true, ⟨st.messages ++ [now], st.violation_count, st.cooldown_until⟩)

/-- `RateLimiter::check_rate_limit` on one user's state.  Returns the
admit decision and the updated state; `none` models a panic inside the
call. -/
def check_rate_limit (rl : RateLimiter) (st : UserState) (now : ℚ) : Option (Bool × UserState) :=
  if cooldownActive st now then
    some (false, st)
  else
    let st1 := applyViolationReset rl st now
    historyCheck rl ⟨retainRecent rl now st1.messages, st1.violation_count, st1.cooldown_until⟩ now

/-- Run a sequence of `check_rate_limit` calls for one user, collecting
the instants of the admitted calls; a panic stops the run. -/
def runCalls (rl : RateLimiter) : UserState → List ℚ → List ℚ × UserState
  | st, [] => ([], st)
  | st, t :: rest =>
    match check_rate_limit rl st t with
    | none => ([], st)
    | some (b, st1) =>
      let r := runCalls rl st1 rest
      (if b then t :: r.1 else r.1, r.2)

/-- Fold a sequence of calls, keeping only the final state; `none` once
any call panics. -/
def iterateCalls (rl : RateLimiter) (st : UserState) (ts : List ℚ) : Option UserState :=
  ts.foldl (fun acc t => acc.bind fun s => (check_rate_limit rl s t).map Prod.snd) (some st)

/-- The concrete call schedule exhibiting the cooldown overflow: one call
every 100 s, 20 calls in total.  With `max_messages = 0`, base cooldown
1 s and multiplier 10, the k-th call drives the violation count to k;
at k = 20 the f32 cooldown is 10^20 s, beyond what a `Duration` can
hold, and `Duration::from_secs_f32` panics (at k = 39 it would overflow
to f32 infinity outright). -/
def overflowTrace : List ℚ :=
  (List.range 20).map (fun k => 100 * (k : ℚ))

/-! ### Connection lifecycle (`src/seitai/src/commands/join.rs`)

The songbird manager is embedded as an association list from guild ids
to call ids, plus a counter of transport-level join requests and the
bot's `connections` routing map.  `Call` handles are identified by their
id: two `run` invocations "return the same connection handle" iff they
return equal ids. -/

/-- The songbird manager plus the bot's `connections` routing map. -/
structure SongbirdState where
  calls : List (ℕ × ℕ)
  nextCallId : ℕ
  transportJoins : ℕ
  connections : List (ℕ × ℕ)
deriving DecidableEq, Repr

/-- A manager with no calls. -/
def emptySongbird : SongbirdState :=
  ⟨[], 0, 0, []⟩

/-- `Songbird::get(guild_id)`: the call handle for a guild, if any. -/
def findCall : List (ℕ × ℕ) → ℕ → Option ℕ
  | [], _ => none
  | (g, c) :: rest, g' => if g = g' then some c else findCall rest g'

/-- `Songbird::get_or_insert(guild_id)`: reuse the existing call or
create a fresh one. -/
def get_or_insert (s : SongbirdState) (g : ℕ) : SongbirdState × ℕ :=
  match findCall s.calls g with
  | some c => (s, c)
  | none => ({ s with calls := (g, s.nextCallId) :: s.calls, nextCallId := s.nextCallId + 1 },
      s.nextCallId)

/-- `Songbird::remove(guild_id)`: tears the call down when present;
`none` embeds `Err(JoinError::NoCall)` when the guild has no call. -/
def songbirdRemove (s : SongbirdState) (g : ℕ) : Option SongbirdState :=
  match findCall s.calls g with
  | some _ => some { s with calls := s.calls.filter (fun p => decide (p.1 ≠ g)) }
  | none => none

/-- The happy path of `join::run` (lines 56–71): `get_or_insert`, then
`call.join(connect_to)` — one transport-level join request per
invocation, unconditionally — then `connections.insert(guild, channel)`.
Returns the new state and the call handle the invocation works with.
(Deafening, the disconnect-notifier registration and the interaction
responses do not affect the modelled state.) -/
def joinRun (s : SongbirdState) (g textChannel : ℕ) : SongbirdState × ℕ :=
  let r := get_or_insert s g
  let s2 := { r.1 with transportJoins := r.1.transportJoins + 1 }
  ({ s2 with connections := (g, textChannel) :: s2.connections }, r.2)

/-- `DriverDisconnectNotifier::act` (lines 109–123): if the manager still
has a call for the guild, stop it and return; otherwise fall through to
`self.songbird_manager.remove(ctx.guild_id).await.unwrap()` — `none`
embeds the panic of that `unwrap` when `remove` errs. -/
def driverDisconnectAct (s : SongbirdState) (g : ℕ) : Option SongbirdState :=
  match findCall s.calls g with
  | some _ => some s
  | none =>
    match songbirdRemove s g with
    | some s' => some s'
    | none => none

/-! ### Audio cache (spec §4.2)

Modelled from the spec: the audio cache behind `get_or_synthesize` —
`crate::audio` with `VoicevoxAudioRepository` and its `Cacheable` store,
imported by `main.rs` and `commands/join.rs` — is not among the provided
sources; only its callers are.  The model follows §4.2 of the spec: a
key is `(speaker id, speed, text)`; a hit returns a fresh handle over
the cached bytes without calling `synthesize_fn`; a miss calls
`synthesize_fn` and inserts on success only. -/

/-- Modelled from the spec: a synthesis-request fingerprint
`(speaker id, speed, normalized text)` (§3 CacheKey). -/
structure AudioKey where
  speaker : ℕ
  speed : ℚ
  text : List Char
deriving DecidableEq, Repr

/-- Lookup in the cache's association list. -/
def lookupAudio : List (AudioKey × ℕ) → AudioKey → Option ℕ
  | [], _ => none
  | (k, b) :: rest, k' => if k = k' then some b else lookupAudio rest k'

/-- Result of one `get_or_synthesize` call: the playable handle (a fresh
handle over the bytes is modelled by the bytes themselves), the cache
afterwards, and whether `synthesize_fn` was invoked. -/
structure SynthOutcome where
  handle : Option ℕ
  cache : List (AudioKey × ℕ)
  invokedSynthesis : Bool
deriving DecidableEq, Repr

/-- Modelled from the spec: `get_or_synthesize(key, synthesize_fn)`
(§4.2).  Hit: fresh handle, no synthesis.  Miss: synthesize; insert on
success, no insertion on failure. -/
def get_or_synthesize (cache : List (AudioKey × ℕ)) (key : AudioKey)
    (synthesizeFn : AudioKey → Option ℕ) : SynthOutcome :=
  match lookupAudio cache key with
  | some bytes => ⟨some bytes, cache, false⟩
  | none =>
    match synthesizeFn key with
    | some bytes => ⟨some bytes, (key, bytes) :: cache, true⟩
    | none => ⟨none, cache, true⟩

/-! ### Message handler (`src/seitai/src/event_handler.rs`)

`Handler::message` splits the content at matches of the `regex_lite`
pattern `[[:alpha:]][[:alnum:]+\-.]*?://[^\s]+`, joins the pieces with
a newline-isolated marker, splits on `'\n'`, trims each line, skips
empty lines and resolves each remaining line through
`get_audio_source`, enqueueing every resolved input in order.

`regex_lite` character classes are ASCII (`\s` is `[\t\n\v\f\r ]`); the
inputs of interest are ASCII, so `str::trim` coincides with trimming
that same set.  The pattern is embedded directly: a match is an ASCII
letter, a shortest (lazy) run of `[[:alnum:]+\-.]` followed by `"://"`,
then a longest nonempty run of non-whitespace.  Since `':'` is not in
the scheme-tail class, a lazy continuation past a failed `"://"` body is
impossible, which the embedding exploits. -/

/-- `regex_lite` `\s` (ASCII). -/
def isRegexSpace (c : Char) : Bool :=
  c = ' ' || c = '\t' || c = '\n' || c = '\x0b' || c = '\x0c' || c = '\r'

/-- `[[:alpha:]]`. -/
def isAsciiAlpha (c : Char) : Bool :=
  ('a' ≤ c && c ≤ 'z') || ('A' ≤ c && c ≤ 'Z')

/-- `[[:alnum:]+\-.]`, the scheme-tail class. -/
def isSchemeTail (c : Char) : Bool :=
  isAsciiAlpha c || ('0' ≤ c && c ≤ '9') || c = '+' || c = '-' || c = '.'

/-- `str::trim` restricted to the ASCII whitespace the inputs use. -/
def trimChars (l : List Char) : List Char :=
  ((l.dropWhile isRegexSpace).reverse.dropWhile isRegexSpace).reverse

/-- Match `"://"` at the head, returning the rest. -/
def matchSep : List Char → Option (List Char)
  | ':' :: '/' :: '/' :: rest => some rest
  | _ => none

/-- After the leading letter: lazily extend the scheme tail until
`"://"` matches, then take the greedy nonempty `[^\s]+` body.  Returns
the input rest after the whole match.  When `"://"` matches but no body
follows, the whole attempt fails: the lazy quantifier would next have to
consume `':'`, which is outside its class. -/
def matchAfterAlpha : List Char → Option (List Char)
  | [] => none
  | c :: rest =>
    match matchSep (c :: rest) with
    | some r =>
      match r.takeWhile (fun ch => !isRegexSpace ch) with
      | [] => none
      | body => some (r.drop body.length)
    | none => if isSchemeTail c then matchAfterAlpha rest else none

/-- Match the whole URL pattern at the head of the input. -/
def matchUrlAt : List Char → Option (List Char)
  | [] => none
  | c :: rest => if isAsciiAlpha c then matchAfterAlpha rest else none

/-- `Regex::split`: cut the input at every leftmost-first match.
Fuel-driven; `input.length + 1` fuel always suffices since a match
consumes at least one character. -/
def splitUrlsAux : ℕ → List Char → List Char → List (List Char)
  | 0, s, acc => [acc.reverse ++ s]
  | _ + 1, [], acc => [acc.reverse]
  | fuel + 1, c :: rest, acc =>
    match matchUrlAt (c :: rest) with
    | some after => acc.reverse :: splitUrlsAux fuel after []
    | none => splitUrlsAux fuel rest (c :: acc)

/-- Split the message content at URL matches. -/
def splitUrls (s : List Char) : List (List Char) :=
  splitUrlsAux (s.length + 1) s []

/-- The line-isolated URL replacement marker
`"{{seitai::replacement::URL}}"`. -/
def urlMarker : List Char :=
  "\x7b\x7bseitai::replacement::URL\x7d\x7d".toList

/-- `Vec::join` separator: the marker on its own line. -/
def urlJoiner : List Char :=
  '\n' :: urlMarker ++ ['\n']

/-- `Vec::join(sep)`. -/
def joinPieces (sep : List Char) : List (List Char) → List Char
  | [] => []
  | [x] => x
  | x :: y :: rest => x ++ sep ++ joinPieces sep (y :: rest)

/-- `str::split('\n')` (which yields `[""]` on the empty string). -/
def splitNewline : List Char → List (List Char)
  | [] => [[]]
  | c :: rest =>
    match splitNewline rest with
    | [] => [[]]
    | piece :: pieces =>
      if c = '\n' then [] :: piece :: pieces else (c :: piece) :: pieces

/-- The lines `Handler::message` iterates over: split at URLs, join with
the newline-isolated marker, split on newlines. -/
def messageLines (content : List Char) : List (List Char) :=
  splitNewline (joinPieces urlJoiner (splitUrls content))

/-- A segment of a message, the observable unit the handler resolves. -/
inductive Segment where
  | text : List Char → Segment
  | urlMarker : Segment
deriving DecidableEq, Repr

/-- The segmentation the handler's loop realizes: trim each line, drop
empty lines, lines equal to the marker become `urlMarker`, the rest
become `text`. -/
def segmentMessage (content : List Char) : List Segment :=
  (messageLines content).filterMap fun line =>
    let t := trimChars line
    if t.isEmpty then none
    else if t = urlMarker then some Segment.urlMarker
    else some (Segment.text t)

/-- `get_audio_source` (lines 94–120).  For the marker the sound store's
`"URL"` entry is fetched and `unwrap`ped — the outer `none` embeds the
panic when the entry is missing.  Otherwise the text goes through
`generate_audio_query` / `generate_audio`, both fallible; `some none`
embeds a logged failure (skip). -/
def get_audio_source {α : Type} (soundStoreUrl : Option α)
    (synth : List Char → Option α) (text : List Char) : Option (Option α) :=
  if text = urlMarker then
    match soundStoreUrl with
    | some sound => some (some sound)
    | none => none
  else
    some (synth text)

/-- What one `Handler::message` run did: whether it panicked, what it
enqueued (in order), and which texts it sent to synthesis. -/
structure MessageOutcome (α : Type) where
  panicked : Bool
  enqueued : List α
  synthesisCalls : List (List Char)
deriving DecidableEq, Repr

/-- The handler's per-line loop (lines 54–68): trim, skip empties,
resolve, enqueue on success.  A panic aborts the rest of the loop;
inputs enqueued before it stay enqueued. -/
def processLines {α : Type} (soundStoreUrl : Option α)
    (synth : List Char → Option α) : List (List Char) → MessageOutcome α
  | [] => ⟨false, [], []⟩
  | line :: rest =>
    let t := trimChars line
    if t.isEmpty then processLines soundStoreUrl synth rest
    else
      match get_audio_source soundStoreUrl synth t with
      | none => ⟨true, [], []⟩
      | some res =>
        let r := processLines soundStoreUrl synth rest
        ⟨r.panicked,
          (match res with
           | some a => a :: r.enqueued
           | none => r.enqueued),
          if t = urlMarker then r.synthesisCalls else t :: r.synthesisCalls⟩

/-- `Handler::message` (lines 34–69): bot authors return immediately;
then `message.guild_id.unwrap()` (panics on direct messages); then the
manager lookup returns when the bot is not connected; otherwise the
per-line loop runs. -/
def handlerMessage {α : Type} (authorBot : Bool) (guildId : Option ℕ)
    (callPresent : ℕ → Bool) (soundStoreUrl : Option α)
    (synth : List Char → Option α) (content : List Char) : MessageOutcome α :=
  if authorBot then ⟨false, [], []⟩
  else
    match guildId with
    | none => ⟨true, [], []⟩
    | some g =>
      if callPresent g then processLines soundStoreUrl synth (messageLines content)
      else ⟨false, [], []⟩

/-! ## Theorems -/

theorem applyViolationReset_messages (rl : RateLimiter) (st : UserState) (now : ℚ) :
    (applyViolationReset rl st now).messages = st.messages := by
  unfold applyViolationReset
  split
  · rfl
  · split
    · rfl
    · split
      · split <;> rfl
      · rfl

theorem applyViolationReset_cooldown (rl : RateLimiter) (st : UserState) (now : ℚ) :
    (applyViolationReset rl st now).cooldown_until = st.cooldown_until := by
  unfold applyViolationReset
  split
  · rfl
  · split
    · rfl
    · split
      · split <;> rfl
      · rfl

theorem F32.mul_val (a b : F32) : (F32.mul a b).val = a.val * b.val := rfl

theorem F32.ofRat_val (q : ℚ) : (F32.ofRat q).val = q := rfl

theorem F32.powi_val (m : F32) (n : ℕ) : (F32.powi m n).val = m.val ^ n := by
  induction n with
  | zero => simp [F32.powi, F32.ofRat]
  | succ k ih => rw [F32.powi, F32.mul_val, ih, pow_succ]

theorem fromSecsF32_some {x : F32} {d : ℚ} (h : fromSecsF32 x = some d) : d = x.val := by
  unfold fromSecsF32 at h
  split at h
  · exact absurd h (by simp)
  · exact (Option.some_inj.mp h).symm

theorem cooldownSecsF32_val (rl : RateLimiter) (vc : ℕ) :
    (cooldownSecsF32 rl vc).val = rl.base_cooldown * rl.cooldown_multiplier.val ^ vc := by
  rw [cooldownSecsF32, F32.mul_val, F32.ofRat_val, F32.powi_val]

/-- C2: with an active cooldown (`now < cooldown_until`) the call rejects
and returns the user's state untouched; once `now` has reached the
expiry the call is evaluated by the normal algorithm and admits whenever
the retained in-window history is below the limit. -/
theorem check_rate_limit_cooldown_frame (rl : RateLimiter) (st : UserState) (now cu : ℚ)
    (hcu : st.cooldown_until = some cu) :
    (now < cu → check_rate_limit rl st now = some (false, st)) ∧
    (cu ≤ now → (retainRecent rl now st.messages).length < rl.max_messages →
      ∃ st1, check_rate_limit rl st now = some (true, st1)) := by
  constructor
  · intro h
    have hca : cooldownActive st now = true := by
      simp [cooldownActive, hcu, h]
    unfold check_rate_limit
    rw [hca]
    simp
  · intro h hlen
    have hca : cooldownActive st now = false := by
      simp [cooldownActive, hcu]
      exact h
    unfold check_rate_limit
    rw [hca]
    simp only [Bool.false_eq_true, if_false]
    unfold historyCheck
    rw [applyViolationReset_messages]
    have : ¬ rl.max_messages ≤ (retainRecent rl now st.messages).length := Nat.not_le.mpr hlen
    rw [if_neg this]
    exact ⟨_, rfl⟩

/-- C2 witness: a user under cooldown until `t = 10` is rejected with an
unchanged state at `t = 5`, and admitted at `t = 20`. -/
theorem check_rate_limit_cooldown_frame_witness :
    check_rate_limit (RateLimiter.new 2 3 20 60 (3 / 2) 1) ⟨[0], 1, some 10⟩ 5 =
      some (false, ⟨[0], 1, some 10⟩) ∧
    ∃ st1, check_rate_limit (RateLimiter.new 2 3 20 60 (3 / 2) 1) ⟨[0], 1, some 10⟩ 20 =
      some (true, st1) :=
  ⟨(check_rate_limit_cooldown_frame (RateLimiter.new 2 3 20 60 (3 / 2) 1)
      ⟨[0], 1, some 10⟩ 5 10 rfl).1 (by norm_num),
   (check_rate_limit_cooldown_frame (RateLimiter.new 2 3 20 60 (3 / 2) 1)
      ⟨[0], 1, some 10⟩ 20 10 rfl).2 (by norm_num) (by decide)⟩

/-- C3: with no active cooldown and a retained in-window history at or
above `max_messages`, the call rejects, bumps the violation count by
one, leaves the history unappended, and sets the expiry to
`now + min(max_cooldown, base_cooldown * multiplier^count)` with the
incremented count as the exponent — provided the f32 product survives
`Duration::from_secs_f32` (the overflowing corner is settled separately,
see `cooldown_overflow_panics`). -/
theorem check_rate_limit_violation_branch (rl : RateLimiter) (st : UserState) (now d : ℚ)
    (hca : cooldownActive st now = false)
    (hlen : rl.max_messages ≤ (retainRecent rl now st.messages).length)
    (hfin : fromSecsF32
      (cooldownSecsF32 rl ((applyViolationReset rl st now).violation_count + 1)) = some d) :
    check_rate_limit rl st now =
      some (false, ⟨retainRecent rl now st.messages,
        (applyViolationReset rl st now).violation_count + 1,
        some (now + min rl.max_cooldown d)⟩) ∧
    d = rl.base_cooldown *
      rl.cooldown_multiplier.val ^ ((applyViolationReset rl st now).violation_count + 1) := by
  constructor
  · unfold check_rate_limit
    rw [hca]
    simp only [Bool.false_eq_true, if_false]
    unfold historyCheck
    rw [applyViolationReset_messages, if_pos hlen, hfin, min_comm]
  · rw [fromSecsF32_some hfin, cooldownSecsF32_val]

/-- C3 witness: the deployed configuration (2 messages / 3 s, base 20 s,
cap 60 s, multiplier 1.5): a third message at `t = 2` after admits at
`t = 0` and `t = 1` rejects with count 1 and expiry `2 + 30 = 32`. -/
theorem check_rate_limit_violation_branch_witness :
    check_rate_limit (RateLimiter.new 2 3 20 60 (3 / 2) 1) ⟨[0, 1], 0, none⟩ 2 =
      some (false, ⟨[0, 1], 1, some 32⟩) ∧
    (30 : ℚ) = 20 * (3 / 2) ^ 1 := by
  have h := check_rate_limit_violation_branch (RateLimiter.new 2 3 20 60 (3 / 2) 1)
    ⟨[0, 1], 0, none⟩ 2 30 (by decide) (by decide) (by decide)
  refine ⟨?_, by norm_num⟩
  rw [h.1]
  decide

/-- C4 (code bug): the source converts the raw f32 cooldown with
`Duration::from_secs_f32` and clamps to `max_cooldown` only afterwards,
so a reachable violation count panics the admit operation: with
`RateLimiter::new(0, 60, 1, 10, 10.0, 1)`, calls every 100 s run fine
for 19 calls and panic on the 20th (cooldown `10^20` s, beyond
`Duration`; at count 39 the product overflows to f32 infinity).  The
spec instead requires clamping before the conversion, which would keep
every cooldown at most `max_cooldown`. -/
theorem cooldown_overflow_panics :
    (iterateCalls (RateLimiter.new 0 60 1 10 10 1) freshUserState (overflowTrace.take 19)).isSome
      = true ∧
    iterateCalls (RateLimiter.new 0 60 1 10 10 1) freshUserState overflowTrace = none := by
  constructor <;> decide

/-- C5 (code bug): a disconnect notification arriving after an explicit
leave has removed the guild's call reaches the
`songbird_manager.remove(..).unwrap()` fall-through, and `remove` on a
guild without a call always errs with `NoCall`, so the `unwrap` panics:
joining guild 1, tearing the call down, then delivering the disconnect
event panics the handler instead of being an idempotent no-op. -/
theorem disconnect_after_leave_panics :
    songbirdRemove (joinRun emptySongbird 1 5).1 1 = some ⟨[], 1, 1, [(1, 5)]⟩ ∧
    driverDisconnectAct ⟨[], 1, 1, [(1, 5)]⟩ 1 = none := by
  constructor <;> rfl

/-- C6 counterexample: two `join::run` invocations for guild 1 with no
intervening leave issue two transport-level join calls, not exactly
one. -/
theorem join_twice_transport_joins_cex :
    ¬ ((joinRun (joinRun emptySongbird 1 5).1 1 5).1.transportJoins = 1) := by
  decide

/-- C6 amended: two consecutive `join::run` invocations for the same
guild return the same call handle (the manager's `get_or_insert`
reuse), but each invocation performs its own transport-level join
request (`call.join` runs unconditionally), so the pair adds two
transport joins, not one. -/
theorem join_twice_same_handle_two_joins (s : SongbirdState) (g tc₁ tc₂ : ℕ) :
    (joinRun (joinRun s g tc₁).1 g tc₂).2 = (joinRun s g tc₁).2 ∧
    (joinRun (joinRun s g tc₁).1 g tc₂).1.transportJoins = s.transportJoins + 2 := by
  unfold joinRun get_or_insert
  cases h : findCall s.calls g with
  | some c => simp [h]
  | none => simp [h, findCall]

/-- C7 (modelled from the spec, §4.2): once a `get_or_synthesize` call
for a key has succeeded, an immediately following call for the same key
on the resulting cache returns a playable handle without invoking the
synthesis function, whatever that function would now do. -/
theorem get_or_synthesize_caches (cache : List (AudioKey × ℕ)) (key : AudioKey)
    (synth synth' : AudioKey → Option ℕ)
    (h : (get_or_synthesize cache key synth).handle.isSome) :
    ((get_or_synthesize (get_or_synthesize cache key synth).cache key synth').handle.isSome
      = true) ∧
    (get_or_synthesize (get_or_synthesize cache key synth).cache key synth').invokedSynthesis
      = false := by
  unfold get_or_synthesize at h ⊢
  cases hl : lookupAudio cache key with
  | some bytes => simp [hl]
  | none =>
    cases hs : synth key with
    | none => simp [hl, hs] at h
    | some bytes => simp [hl, hs, lookupAudio]

/-- C7 witness: an empty cache, the key (speaker 1, speed 1, text "a"),
and a synthesis function returning bytes 7. -/
theorem get_or_synthesize_caches_witness :
    ((get_or_synthesize [] ⟨1, 1, ['a']⟩ (fun _ => some 7)).handle.isSome = true) ∧
    ((get_or_synthesize (get_or_synthesize [] ⟨1, 1, ['a']⟩ (fun _ => some 7)).cache
        ⟨1, 1, ['a']⟩ (fun _ => some 7)).handle.isSome = true) ∧
    ((get_or_synthesize (get_or_synthesize [] ⟨1, 1, ['a']⟩ (fun _ => some 7)).cache
        ⟨1, 1, ['a']⟩ (fun _ => some 7)).invokedSynthesis = false) :=
  ⟨by decide,
    (get_or_synthesize_caches [] ⟨1, 1, ['a']⟩ (fun _ => some 7) (fun _ => some 7)
      (by decide)).1,
    (get_or_synthesize_caches [] ⟨1, 1, ['a']⟩ (fun _ => some 7) (fun _ => some 7)
      (by decide)).2⟩

theorem check_rate_limit_messages_spec (rl : RateLimiter) (st : UserState) (now : ℚ)
    (b : Bool) (st1 : UserState) (h : check_rate_limit rl st now = some (b, st1)) :
    (b = false ∧
      (st1.messages = st.messages ∨ st1.messages = retainRecent rl now st.messages)) ∨
    (b = true ∧ st1.messages = retainRecent rl now st.messages ++ [now] ∧
      (retainRecent rl now st.messages).length < rl.max_messages) := by
  unfold check_rate_limit at h
  by_cases hca : cooldownActive st now = true
  · rw [if_pos hca] at h
    obtain ⟨hb, hst⟩ := Prod.mk.injEq .. ▸ Option.some_inj.mp h
    exact Or.inl ⟨hb.symm, Or.inl (hst ▸ rfl)⟩
  · rw [if_neg hca] at h
    dsimp only at h
    rw [applyViolationReset_messages] at h
    unfold historyCheck at h
    dsimp only at h
    by_cases hlen : rl.max_messages ≤ (retainRecent rl now st.messages).length
    · rw [if_pos hlen] at h
      rcases hf : fromSecsF32 (cooldownSecsF32 rl
          ((applyViolationReset rl st now).violation_count + 1)) with _ | d
      · rw [hf] at h; exact absurd h (by simp)
      · rw [hf] at h
        obtain ⟨hb, hst⟩ := Prod.mk.injEq .. ▸ Option.some_inj.mp h
        exact Or.inl ⟨hb.symm, Or.inr (hst ▸ rfl)⟩
    · rw [if_neg hlen] at h
      obtain ⟨hb, hst⟩ := Prod.mk.injEq .. ▸ Option.some_inj.mp h
      exact Or.inr ⟨hb.symm, hst ▸ rfl, Nat.lt_of_not_le hlen⟩

theorem runCalls_admits_bound (rl : RateLimiter) :
    ∀ (ts : List ℚ) (st : UserState) (A : List ℚ),
      A.Sublist st.messages →
      (∀ a ∈ A, ∀ u ∈ ts, durSince u a ≤ rl.time_window) →
      (∀ u ∈ ts, ∀ v ∈ ts, durSince v u ≤ rl.time_window) →
      A.length + ((runCalls rl st ts).1).length ≤ max rl.max_messages A.length := by
  intro ts
  induction ts with
  | nil =>
    intro st A _ _ _
    simp only [runCalls, List.length_nil, Nat.add_zero]
    exact le_max_right rl.max_messages A.length
  | cons t rest ih =>
    intro st A hsub hAwin hts
    have hretain : A.Sublist (retainRecent rl t st.messages) := by
      have hfix : A.filter (fun x => decide (durSince t x ≤ rl.time_window)) = A := by
        rw [List.filter_eq_self]
        intro a ha
        exact decide_eq_true (hAwin a ha t (List.mem_cons_self t rest))
      exact hfix ▸ hsub.filter (fun x => decide (durSince t x ≤ rl.time_window))
    rw [runCalls]
    cases hc : check_rate_limit rl st t with
    | none =>
      simp only [List.length_nil, Nat.add_zero]
      exact le_max_right rl.max_messages A.length
    | some p =>
      obtain ⟨b, st1⟩ := p
      rcases check_rate_limit_messages_spec rl st t b st1 hc with
        ⟨hb, hmsg⟩ | ⟨hb, hmsg, hlt⟩
      · subst hb
        have hsub1 : A.Sublist st1.messages := by
          rcases hmsg with h1 | h1
          · rw [h1]; exact hsub
          · rw [h1]; exact hretain
        have := ih st1 A hsub1
          (fun a ha u hu => hAwin a ha u (List.mem_cons_of_mem t hu))
          (fun u hu v hv =>
            hts u (List.mem_cons_of_mem t hu) v (List.mem_cons_of_mem t hv))
        simpa using this
      · subst hb
        have hAlt : A.length < rl.max_messages :=
          Nat.lt_of_le_of_lt (hretain.length_le) hlt
        have hsub1 : (A ++ [t]).Sublist st1.messages := by
          rw [hmsg]
          exact hretain.append (List.Sublist.refl [t])
        have hwin1 : ∀ a ∈ A ++ [t], ∀ u ∈ rest, durSince u a ≤ rl.time_window := by
          intro a ha u hu
          rcases List.mem_append.mp ha with ha' | ha'
          · exact hAwin a ha' u (List.mem_cons_of_mem t hu)
          · rw [List.mem_singleton.mp ha']
            exact hts t (List.mem_cons_self t rest) u (List.mem_cons_of_mem t hu)
        have hrec := ih st1 (A ++ [t]) hsub1 hwin1
          (fun u hu v hv =>
            hts u (List.mem_cons_of_mem t hu) v (List.mem_cons_of_mem t hv))
        rw [List.length_append, List.length_singleton] at hrec
        rw [max_eq_left (Nat.succ_le_of_lt hAlt)] at hrec
        have hfin : A.length + ((runCalls rl st1 rest).1.length + 1) ≤
            max rl.max_messages A.length :=
          le_trans (by omega) (le_max_left rl.max_messages A.length)
        simpa using hfin

/-- C1: among any sequence of `check_rate_limit` calls for one user
whose instants all lie within an interval shorter than the configured
window — whatever state the user starts in — at most `max_messages`
calls are admitted. -/
theorem rate_limiter_window_bound (rl : RateLimiter) (st : UserState) (ts : List ℚ)
    (hw : 0 ≤ rl.time_window)
    (hts : ∀ u ∈ ts, ∀ v ∈ ts, v - u < rl.time_window) :
    ((runCalls rl st ts).1).length ≤ rl.max_messages := by
  have h := runCalls_admits_bound rl ts st [] (List.nil_sublist _) (by simp)
    (fun u hu v hv => max_le (le_of_lt (hts u hu v hv)) hw)
  simpa using h

/-- C1 witness: the deployed configuration (2 messages per 3 s window)
and three calls at `t = 0, 1, 2`, all within an interval of length 2. -/
theorem rate_limiter_window_bound_witness :
    (0 : ℚ) ≤ (RateLimiter.new 2 3 20 60 (3 / 2) 1).time_window ∧
    ((runCalls (RateLimiter.new 2 3 20 60 (3 / 2) 1) freshUserState [0, 1, 2]).1).length ≤
      (RateLimiter.new 2 3 20 60 (3 / 2) 1).max_messages :=
  ⟨by norm_num [RateLimiter.new],
    rate_limiter_window_bound (RateLimiter.new 2 3 20 60 (3 / 2) 1) freshUserState [0, 1, 2]
      (by norm_num [RateLimiter.new]) (by decide)⟩

theorem space_not_alpha (c : Char) (h : isRegexSpace c = true) : isAsciiAlpha c = false := by
  unfold isRegexSpace at h
  simp only [Bool.or_eq_true, decide_eq_true_eq] at h
  rcases h with (((((h | h) | h) | h) | h) | h) <;> subst h <;> decide

theorem splitUrlsAux_space :
    ∀ (fuel : ℕ) (s acc : List Char), (∀ c ∈ s, isRegexSpace c = true) →
      splitUrlsAux fuel s acc = [acc.reverse ++ s] := by
  intro fuel
  induction fuel with
  | zero => intro s acc _; rfl
  | succ n ih =>
    intro s acc h
    cases s with
    | nil => simp [splitUrlsAux]
    | cons c rest =>
      have hna : isAsciiAlpha c = false :=
        space_not_alpha c (h c (List.mem_cons_self c rest))
      have hmatch : matchUrlAt (c :: rest) = none := by
        simp [matchUrlAt, hna]
      simp only [splitUrlsAux, hmatch]
      rw [ih rest (c :: acc) (fun x hx => h x (List.mem_cons_of_mem c hx))]
      simp

theorem splitNewline_chars :
    ∀ (s piece : List Char), piece ∈ splitNewline s → ∀ c ∈ piece, c ∈ s := by
  intro s
  induction s with
  | nil =>
    intro piece hp c hc
    simp [splitNewline] at hp
    subst hp
    simp at hc
  | cons a rest ih =>
    intro piece hp c hc
    rw [splitNewline] at hp
    rcases hsp : splitNewline rest with _ | ⟨p, ps⟩
    · rw [hsp] at hp
      simp at hp
      subst hp
      simp at hc
    · rw [hsp] at hp
      dsimp only at hp
      by_cases ha : a = '\n'
      · rw [if_pos ha] at hp
        rcases List.mem_cons.mp hp with h1 | h1
        · subst h1; simp at hc
        · exact List.mem_cons_of_mem a (ih piece (hsp ▸ h1) c hc)
      · rw [if_neg ha] at hp
        rcases List.mem_cons.mp hp with h1 | h1
        · subst h1
          rcases List.mem_cons.mp hc with h2 | h2
          · exact h2 ▸ List.mem_cons_self a rest
          · exact List.mem_cons_of_mem a
              (ih p (hsp ▸ List.mem_cons_self p ps) c h2)
        · exact List.mem_cons_of_mem a
            (ih piece (hsp ▸ List.mem_cons_of_mem p h1) c hc)

theorem trimChars_space (l : List Char) (h : ∀ c ∈ l, isRegexSpace c = true) :
    trimChars l = [] := by
  unfold trimChars
  rw [List.dropWhile_eq_nil_iff.mpr h]
  simp

/-- C8: segmentation — `"check http://a.b now"` yields exactly
`[Text "check", UrlMarker, Text "now"]` in order; every whitespace-only
input yields no segments; in particular `"  "` yields none. -/
theorem segmentation_spec :
    segmentMessage ("check http://a.b now".toList) =
      [Segment.text ("check".toList), Segment.urlMarker, Segment.text ("now".toList)] ∧
    (∀ s : List Char, (∀ c ∈ s, isRegexSpace c = true) → segmentMessage s = []) ∧
    segmentMessage ("  ".toList) = [] := by
  refine ⟨by decide, ?_, by decide⟩
  intro s h
  unfold segmentMessage messageLines splitUrls
  rw [splitUrlsAux_space (s.length + 1) s [] h]
  simp only [List.reverse_nil, List.nil_append, joinPieces]
  rw [List.filterMap_eq_nil_iff]
  intro line hline
  have hsp : ∀ c ∈ line, isRegexSpace c = true :=
    fun c hc => h c (splitNewline_chars s line hline c hc)
  simp [trimChars_space line hsp]

/-- C8 witness: a single-tab message is whitespace-only and yields no
segments. -/
theorem segmentation_spec_witness :
    segmentMessage ['\t'] = [] :=
  segmentation_spec.2.1 ['\t'] (by decide)

/-- C9 (code bug): when the sound store has no `"URL"` entry, the
message `"a http://x.y b"` — with a synthesis backend that succeeds on
everything — panics at the URL marker (`sound_store.get("URL").unwrap()`)
instead of skipping it: `"a"` is synthesized and enqueued, then the
handler aborts, and the trailing `"b"` is never synthesized nor
enqueued, contrary to skip-and-continue. -/
theorem url_sound_missing_aborts :
    handlerMessage false (some 1) (fun _ => true) (none : Option ℕ)
      (fun t => some t.length) ("a http://x.y b".toList) =
      ⟨true, [1], [['a']]⟩ := by
  decide

/-- C10: a message from a bot author returns before segmentation: no
synthesis call is made and nothing is enqueued, whatever the guild, the
connection map, the sound store or the synthesis backend look like. -/
theorem bot_messages_ignored {α : Type} (guildId : Option ℕ) (callPresent : ℕ → Bool)
    (soundStoreUrl : Option α) (synth : List Char → Option α) (content : List Char) :
    handlerMessage true guildId callPresent soundStoreUrl synth content =
      ⟨false, [], []⟩ := rfl

end Seitai
